import Mathlib

/-!
# Verification of the `jsonrpc-client-http` HTTP transport core

A shallow embedding of `src/http/src/lib.rs` (the HTTP transport for
`jsonrpc-client-core`): the error taxonomy generated by `error_chain!`, the
`TimeLimited` future combinator (a `Select2` race between an operation and a
`tokio_core` `Timeout`), the request-processing loop built from
`request_rx.for_each`, the `HttpHandle` front end (`get_next_id`, `send`,
`create_request`, `set_header`) and the two bootstrap paths
(`HttpTransportBuilder::standalone` / `::shared`).

Futures are embedded at the level of their decisive poll results: external
events (the outcome of the Hyper call, the timer's poll, the body
concatenation, channel liveness) are oracle inputs, and the combinator logic
applied to them is translated line by line from the source.
-/

namespace JsonRpcHttp

/-- Byte strings are lists of byte values. -/
abbrev Bytes := List Nat

/-- The error kinds of the `error_chain!` block of `lib.rs` (lines 100-125),
together with the foreign error types that appear as chained causes in the
code: `hyper::Error`, `hyper::error::UriError`, `std::io::Error` (timer and
client-creator failures), `oneshot::Canceled` and the mpsc send error.
Foreign errors are opaque; an unstructured code stands for their payload. -/
inductive ErrorKind where
  | clientCreatorError
  | httpError (code : Nat)
  | requestTimeout
  | tokioCoreError (msg : String)
  | hyperErr (code : Nat)
  | uriError (code : Nat)
  | ioErr (code : Nat)
  | channelCanceled
  | sendError
  deriving DecidableEq, Repr

/-- An `error_chain` error: a kind plus the chain of causes accumulated by
`chain_err` / `Error::with_chain` (most recent cause first). -/
structure ErrorC where
  kind : ErrorKind
  causes : List ErrorKind
  deriving DecidableEq, Repr

/-- An error with no cause attached (a fresh `ErrorKind::...into()`). -/
def ErrorC.ofKind (k : ErrorKind) : ErrorC := ⟨k, []⟩

/-- Model of `chain_err`: wrap an existing error in a new kind, keeping it as cause. -/
def ErrorC.chain (e : ErrorC) (k : ErrorKind) : ErrorC := ⟨k, e.kind :: e.causes⟩

/-- Model of `Error::with_chain(foreign, kind)`: wrap a foreign error in a kind. -/
def ErrorC.withChain (cause : ErrorKind) (k : ErrorKind) : ErrorC := ⟨k, [cause]⟩

/-- The result of polling a `futures 0.1` future once:
`Ok(Async::NotReady)`, `Ok(Async::Ready(a))` or `Err(e)`. -/
inductive Poll (α : Type) (ε : Type) where
  | notReady
  | ready (a : α)
  | err (e : ε)
  deriving DecidableEq, Repr

/-- Model of `Either`, as used by `futures::future::Select2` to tag which of the two
futures finished first (the loser future itself is discarded with `_` in
`TimeLimited::poll`, so it is not carried here). -/
inductive Either (α : Type) (β : Type) where
  | a (x : α)
  | b (y : β)
  deriving DecidableEq, Repr

/-- One poll of `Select2<A, B>` (futures 0.1): `A` is polled first; only if it
is `NotReady` is `B` polled, so a tie is resolved in favor of `A`. -/
def select2Poll {α β εa εb : Type} (pa : Poll α εa) (pb : Poll β εb) :
    Poll (Either α β) (Either εa εb) :=
  match pa with
  | .ready x => .ready (.a x)
  | .err e => .err (.a e)
  | .notReady =>
    match pb with
    | .ready y => .ready (.b y)
    | .err e => .err (.b e)
    | .notReady => .notReady

/-- Model of `TimeLimited<F>` (lines 279-283): either the `Select2` race of the wrapped
future against a `Timeout`, or the bare future. Each wrapped future is
represented by its decisive poll result; the timer's poll has item `()` and
error `std::io::Error` (an opaque code). -/
inductive TimeLimited (α : Type) where
  | withTimer (op : Poll α ErrorC) (timer : Poll Unit Nat)
  | noTimer (op : Poll α ErrorC)
  deriving DecidableEq, Repr

namespace TimeLimited

/-- Model of `TimeLimited::limited` (lines 300-306): creates the timer via
`Timeout::new(time_limit, handle)` and `.expect(..)`s the result, so a timer
creation failure is a panic, modelled as `none`. The oracle `timeoutNew`
is the `Timeout::new` result: an io error or the timer's decisive poll. -/
def limited {α : Type} (op : Poll α ErrorC) (timeoutNew : Except Nat (Poll Unit Nat)) :
    Option (TimeLimited α) :=
  match timeoutNew with
  | .error _ => none
  | .ok timer => some (.withTimer op timer)

/-- Model of `TimeLimited::new` (lines 290-295): with a configured duration defer to
`limited`, otherwise wrap as `Unlimited`. The duration's value is never
inspected beyond being present, so it is a bare `Nat`. -/
def new {α : Type} (op : Poll α ErrorC) (optionalTimeLimit : Option Nat)
    (timeoutNew : Except Nat (Poll Unit Nat)) : Option (TimeLimited α) :=
  match optionalTimeLimit with
  | some _ => limited op timeoutNew
  | none => some (.noTimer op)

/-- Model of `impl Future for TimeLimited` (lines 308-324): `Unlimited` delegates;
`Limited` polls the `Select2` race and maps its four completed outcomes. -/
def poll {α : Type} : TimeLimited α → Poll α ErrorC
  | .noTimer op => op
  | .withTimer op timer =>
    match select2Poll op timer with
    | .notReady => .notReady
    | .ready (.a result) => .ready result
    | .ready (.b ()) => .err (ErrorC.ofKind .requestTimeout)
    | .err (.a e) => .err e
    | .err (.b ioCode) =>
      .err (ErrorC.withChain (.ioErr ioCode) .requestTimeout)

end TimeLimited

/-- Equality of `Except` values is decidable when it is on both components. -/
instance {ε α : Type} [DecidableEq ε] [DecidableEq α] : DecidableEq (Except ε α) := fun x y =>
  match x, y with
  | .ok a, .ok b =>
    match decEq a b with
    | isTrue h => isTrue (by rw [h])
    | isFalse h => isFalse (fun hh => h (Except.ok.inj hh))
  | .error a, .error b =>
    match decEq a b with
    | isTrue h => isTrue (by rw [h])
    | isFalse h => isFalse (fun hh => h (Except.error.inj hh))
  | .ok _, .error _ => isFalse (fun hh => Except.noConfusion hh)
  | .error _, .ok _ => isFalse (fun hh => Except.noConfusion hh)

/-- A Hyper `Response`, restricted to what the loop inspects: its status code
and the (already resolved) outcome of `response.body().concat2()` — either a
Hyper error code or the full buffered body. -/
structure Response where
  status : Nat
  body : Except Nat Bytes
  deriving DecidableEq, Repr

/-- Model of `from_err` applied to the poll of a future with `hyper::Error` errors
(`client.request(request).from_err()`, line 351). -/
def fromErrPoll {α : Type} : Poll α Nat → Poll α ErrorC
  | .notReady => .notReady
  | .ready a => .ready a
  | .err e => .err (ErrorC.ofKind (.hyperErr e))

/-- Observable events of the processing of one dequeued request, tagged with
the request's position in the submission queue. -/
inductive Event where
  /-- The closure ran for this request: `trace!` plus `client.request(..)`,
  the start of the request's network phase. -/
  | callStart (idx : Nat)
  /-- Event `response.body().concat2()` ran: the response body was read. -/
  | bodyRead (idx : Nat)
  /-- Event `response_tx.send(response_result)` succeeded: the result was delivered
  to the waiting caller. -/
  | deliverOk (idx : Nat) (r : Except ErrorC Bytes)
  /-- Event `response_tx.send(..)` failed: the caller had dropped its receiver. -/
  | deliverFailed (idx : Nat)
  /-- Event `warn!("Unable to send response back to caller")`. -/
  | warnLog (idx : Nat)
  deriving DecidableEq, Repr

/-- The queue position a trace event belongs to. -/
def Event.reqIdx : Event → Nat
  | .callStart i => i
  | .bodyRead i => i
  | .deliverOk i _ => i
  | .deliverFailed i => i
  | .warnLog i => i

/-- The oracle for one request's external events: the `Timeout::new` result
(relevant only when a timeout is configured), the decisive poll of the Hyper
call, and whether the caller still holds its completion receiver. -/
structure RequestOracle where
  timeoutNew : Except Nat (Poll Unit Nat)
  callPoll : Poll Response Nat
  callerAlive : Bool
  deriving DecidableEq, Repr

/-- The `.then(move |response_result| { if let Err(_) = response_tx.send(..)
{ warn!(..) } Ok(()) })` stage (lines 363-368): attempt delivery, log on
failure, and always yield `Ok(())` to `for_each`. -/
def deliverEvents (idx : Nat) (r : Except ErrorC Bytes) (alive : Bool) : List Event :=
  if alive then [.deliverOk idx r] else [.deliverFailed idx, .warnLog idx]

/-- How the processing of one dequeued request ends, with its event trace:
`panicked` — `TimeLimited::new` panicked (timer creation failed), killing the
loop; `stuck` — the raced future never resolves, so `for_each` never moves
on; `done` — the per-request future resolved `Ok(())` and the loop proceeds. -/
inductive ReqOutcome where
  | panicked (tr : List Event)
  | stuck (tr : List Event)
  | done (tr : List Event)
  deriving DecidableEq, Repr

/-- The body of the `for_each` closure (lines 349-368) for the request at
queue position `idx`: build the Hyper call, wrap it in `TimeLimited`, check
the status code (reading the body only on `200 OK`), then attempt delivery. -/
def processRequest (timeout : Option Nat) (idx : Nat) (o : RequestOracle) : ReqOutcome :=
  match TimeLimited.new (fromErrPoll o.callPoll) timeout o.timeoutNew with
  | none => .panicked [.callStart idx]
  | some tl =>
    match tl.poll with
    | .notReady => .stuck [.callStart idx]
    | .err e => .done (.callStart idx :: deliverEvents idx (.error e) o.callerAlive)
    | .ready resp =>
      if resp.status = 200 then
        .done (.callStart idx :: .bodyRead idx ::
          deliverEvents idx
            (match resp.body with
              | .ok chunk => .ok chunk
              | .error e => .error (ErrorC.ofKind (.hyperErr e)))
            o.callerAlive)
      else
        .done (.callStart idx ::
          deliverEvents idx (.error (ErrorC.ofKind (.httpError resp.status))) o.callerAlive)

/-- Whether the per-request future resolved (so `for_each` takes the next
queued item). -/
def ReqOutcome.isDone : ReqOutcome → Bool
  | .done _ => true
  | .panicked _ => false
  | .stuck _ => false

/-- How a run of the whole processing future ends: a panic or a stuck
request kills or hangs the loop with the trace so far; otherwise every queued
request was processed. -/
inductive LoopOutcome where
  | panicked (tr : List Event)
  | hung (tr : List Event)
  | finished (tr : List Event)
  deriving DecidableEq, Repr

/-- Model of `request_rx.for_each(..)` from queue position `idx` on: each request's
future is driven to completion before the next item is taken from the
stream. -/
def runLoopFrom (timeout : Option Nat) (idx : Nat) : List RequestOracle → LoopOutcome
  | [] => .finished []
  | o :: rest =>
    match processRequest timeout idx o with
    | .panicked tr => .panicked tr
    | .stuck tr => .hung tr
    | .done tr =>
      match runLoopFrom timeout (idx + 1) rest with
      | .panicked tr2 => .panicked (tr ++ tr2)
      | .hung tr2 => .hung (tr ++ tr2)
      | .finished tr2 => .finished (tr ++ tr2)

/-- Model of `create_request_processing_future` (lines 343-371) applied to the full
submission queue, as the loop drains it in FIFO order. -/
def create_request_processing_future (timeout : Option Nat)
    (queue : List RequestOracle) : LoopOutcome :=
  runLoopFrom timeout 0 queue

/-- Hyper's `Headers`: a collection of name/value pairs in which a name is
bound at most once (`set` replaces an existing header of the same name). -/
abbrev Headers := List (String × String)

/-- Model of `Headers::set`: drop any existing binding of the name, insert the new. -/
def Headers.set (hs : Headers) (n v : String) : Headers :=
  hs.filter (fun p => p.1 ≠ n) ++ [(n, v)]

/-- Model of `Headers::get`: the value bound to a name, if any. -/
def Headers.get (hs : Headers) (n : String) : Option String :=
  (hs.find? (fun p => p.1 = n)).map Prod.snd

/-- Model of `Headers::extend(iter)`: `set` each header of the iterator in turn, so a
later binding of a name replaces an earlier one. -/
def Headers.extend (hs more : Headers) : Headers :=
  more.foldl (fun acc p => Headers.set acc p.1 p.2) hs

/-- Hyper request methods (only `Post` is ever produced by this code). -/
inductive Method where
  | post
  | get
  deriving DecidableEq, Repr

/-- A Hyper `Request` as built by the handle: method, destination URI,
headers and body. -/
structure Request where
  method : Method
  uri : String
  headers : Headers
  body : Bytes
  deriving DecidableEq, Repr

/-- Model of `HttpHandle` (lines 376-382), restricted to the state `create_request`
and `set_header` read and write: its fixed destination URI and its configured
custom headers. (Its `request_tx` and shared `id` are modelled separately by
the queue of `create_request_processing_future` and by `idSequence`.) -/
structure HttpHandle where
  uri : String
  headers : Headers
  deriving DecidableEq, Repr

/-- Model of `HttpHandle::set_header` (lines 389-392). -/
def HttpHandle.set_header (h : HttpHandle) (n v : String) : HttpHandle :=
  { h with headers := h.headers.set n v }

/-- The value of `hyper::header::ContentType::json()`. -/
def contentTypeJson : String := "application/json"

/-- Model of `HttpHandle::create_request` (lines 395-405): a POST to the handle's URI,
with JSON content type and the body's length set first and the handle's own
headers extended over them. -/
def HttpHandle.create_request (h : HttpHandle) (body : Bytes) : Request :=
  let headers : Headers := []
  let headers := headers.set "Content-Type" contentTypeJson
  let headers := headers.set "Content-Length" (toString body.length)
  let headers := headers.extend h.headers
  { method := .post, uri := h.uri, headers := headers, body := body }

/-- Model of `HttpHandle::send` (lines 416-433), as the resolved value of the future
it returns. Oracles: `queueAlive` — whether `unbounded_send` found a live
receiver (the loop still runs); `completion` — the value delivered on the
oneshot channel, or `none` if the sender was dropped without a result
(`oneshot::Canceled`). The final `.and_then(future::result)` flattens the
delivered `Result`. -/
def HttpHandle.send (queueAlive : Bool) (completion : Option (Except ErrorC Bytes)) :
    Except ErrorC Bytes :=
  if queueAlive then
    match completion with
    | none =>
      .error (ErrorC.withChain .channelCanceled
        (.tokioCoreError "Died without returning response"))
    | some r => r
  else
    .error (ErrorC.withChain .sendError
      (.tokioCoreError "Not listening for requests"))

/-- The width of `usize` (and of `u64`, into which `get_next_id` casts) on
the 64-bit platforms this crate targets; `AtomicUsize::fetch_add` wraps
around at this modulus. -/
def usizeWidth : Nat := 2 ^ 64

/-- Model of `AtomicUsize::fetch_add(1, SeqCst)`: returns the previous value, stores
the wrapped successor. -/
def fetchAddOne (s : Nat) : Nat × Nat := (s, (s + 1) % usizeWidth)

/-- The ids returned by `n` successive `get_next_id` calls (lines 412-414) on
a counter currently holding `s`. Concurrent calls are serialized by the
atomic, so every interleaving is some sequence of `fetchAddOne` steps. -/
def idSequence (s : Nat) : Nat → List Nat
  | 0 => []
  | n + 1 =>
    let (ret, s2) := fetchAddOne s
    ret :: idSequence s2 n

/-- Model of `HttpTransport`, restricted to the state the claims inspect: the value of
its shared `AtomicUsize` id counter. -/
structure HttpTransport where
  idCounter : Nat
  deriving DecidableEq, Repr

/-- Model of `HttpTransportBuilder::build` (lines 268-273): the counter starts at 1. -/
def HttpTransportBuilder.build : HttpTransport := { idCounter := 1 }

/-- The ids handed out by `n` `get_next_id` calls sharing the counter of one
freshly built transport. -/
def transportIds (n : Nat) : List Nat :=
  idSequence HttpTransportBuilder.build.idCounter n

/-- An opaque Hyper `Client` produced by a `ClientCreator`. -/
structure Client where
  tag : Nat
  deriving DecidableEq, Repr

/-- Model of `create_standalone_core` (lines 327-339), up to the point where the claims
look: `Core::new` and `client_creator.create(&handle)` are oracle results
(opaque error codes), each chained into the documented kind on failure. -/
def create_standalone_core (coreNew : Except Nat Unit) (clientCreate : Except Nat Client) :
    Except ErrorC Unit :=
  match coreNew with
  | .error e => .error (ErrorC.withChain (.ioErr e) (.tokioCoreError "Unable to create"))
  | .ok () =>
    match clientCreate with
    | .error e => .error (ErrorC.withChain (.ioErr e) .clientCreatorError)
    | .ok _ => .ok ()

/-- Model of `HttpTransportBuilder::standalone` (lines 232-250): the spawned thread
sends either the error or the built transport over the rendezvous channel;
`standalone` returns `rx.recv().unwrap()`, i.e. exactly what was sent. The
second component records whether the thread went on to `core.run(future)`
(`false` means it signalled and exited at once). -/
def standalone (coreNew : Except Nat Unit) (clientCreate : Except Nat Client) :
    Except ErrorC HttpTransport × Bool :=
  match create_standalone_core coreNew clientCreate with
  | .error e => (.error e, false)
  | .ok () => (.ok HttpTransportBuilder.build, true)

/-- Model of `HttpTransportBuilder::shared` (lines 254-266): create the client on the
calling thread; on failure return the chained `ClientCreatorError` by `?`
before anything is spawned, otherwise spawn the processing future on the
given handle and return the built transport. The second component records
whether `handle.spawn` ran. -/
def shared (clientCreate : Except Nat Client) :
    Except ErrorC HttpTransport × Bool :=
  match clientCreate with
  | .error e => (.error (ErrorC.withChain (.ioErr e) .clientCreatorError), false)
  | .ok _ => (.ok HttpTransportBuilder.build, true)

/-- When the caller is gone, the delivery stage is a failed send and a log
entry. -/
theorem deliverEvents_dead (idx : Nat) (r : Except ErrorC Bytes) :
    deliverEvents idx r false = [.deliverFailed idx, .warnLog idx] := rfl

/-- When the caller waits, the delivery stage is one successful send. -/
theorem deliverEvents_live (idx : Nat) (r : Except ErrorC Bytes) :
    deliverEvents idx r true = [.deliverOk idx r] := rfl

/-- The delivery stage always contains a delivery attempt for its request, a
`warn!` log entry when the caller is gone, and only events of its request. -/
theorem deliverEvents_spec (idx : Nat) (r : Except ErrorC Bytes) (alive : Bool) :
    ((∃ r2, Event.deliverOk idx r2 ∈ deliverEvents idx r alive)
        ∨ Event.deliverFailed idx ∈ deliverEvents idx r alive)
  ∧ (alive = false → Event.warnLog idx ∈ deliverEvents idx r alive)
  ∧ ∀ ev ∈ deliverEvents idx r alive, ev.reqIdx = idx := by
  cases alive with
  | false =>
    rw [deliverEvents_dead]
    refine ⟨Or.inr (by simp), fun _ => by simp, ?_⟩
    intro ev hev
    rcases List.mem_cons.1 hev with rfl | hev2
    · rfl
    · rcases List.mem_cons.1 hev2 with rfl | hev3
      · rfl
      · exact absurd hev3 (List.not_mem_nil ev)
  | true =>
    rw [deliverEvents_live]
    refine ⟨Or.inl ⟨r, by simp⟩, fun hc => by simp at hc, ?_⟩
    intro ev hev
    rcases List.mem_cons.1 hev with rfl | hev2
    · rfl
    · exact absurd hev2 (List.not_mem_nil ev)

/-- The two shapes of a resolved request's trace — a call start, optionally a
body read, then the delivery stage — contain the start of the network call, a
delivery attempt, the `warn!` entry when the caller is gone, and only events
of their own request. -/
theorem trace_spec_aux (idx : Nat) (r : Except ErrorC Bytes) (alive : Bool)
    (tr : List Event)
    (h : tr = Event.callStart idx :: deliverEvents idx r alive
       ∨ tr = Event.callStart idx :: Event.bodyRead idx :: deliverEvents idx r alive) :
    Event.callStart idx ∈ tr
  ∧ ((∃ r2, Event.deliverOk idx r2 ∈ tr) ∨ Event.deliverFailed idx ∈ tr)
  ∧ (alive = false → Event.warnLog idx ∈ tr)
  ∧ ∀ ev ∈ tr, ev.reqIdx = idx := by
  obtain ⟨hdel, hwarn, hidx⟩ := deliverEvents_spec idx r alive
  rcases h with rfl | rfl
  · refine ⟨List.mem_cons_self _ _, ?_, ?_, ?_⟩
    · rcases hdel with ⟨r2, hr⟩ | hf
      · exact Or.inl ⟨r2, List.mem_cons_of_mem _ hr⟩
      · exact Or.inr (List.mem_cons_of_mem _ hf)
    · exact fun hd => List.mem_cons_of_mem _ (hwarn hd)
    · intro ev hev
      rcases List.mem_cons.1 hev with rfl | hev2
      · rfl
      · exact hidx ev hev2
  · refine ⟨List.mem_cons_self _ _, ?_, ?_, ?_⟩
    · rcases hdel with ⟨r2, hr⟩ | hf
      · exact Or.inl ⟨r2, List.mem_cons_of_mem _ (List.mem_cons_of_mem _ hr)⟩
      · exact Or.inr (List.mem_cons_of_mem _ (List.mem_cons_of_mem _ hf))
    · exact fun hd => List.mem_cons_of_mem _ (List.mem_cons_of_mem _ (hwarn hd))
    · intro ev hev
      rcases List.mem_cons.1 hev with rfl | hev2
      · rfl
      · rcases List.mem_cons.1 hev2 with rfl | hev3
        · rfl
        · exact hidx ev hev3

/-- A request whose per-request future resolved (`done`) has a trace that
contains the start of its network call, a delivery attempt, the `warn!` entry
when its caller is gone — and nothing belonging to another request. -/
theorem processRequest_done_events (t : Option Nat) (idx : Nat) (o : RequestOracle)
    (tr : List Event) (h : processRequest t idx o = .done tr) :
    Event.callStart idx ∈ tr
  ∧ ((∃ r, Event.deliverOk idx r ∈ tr) ∨ Event.deliverFailed idx ∈ tr)
  ∧ (o.callerAlive = false → Event.warnLog idx ∈ tr)
  ∧ ∀ ev ∈ tr, ev.reqIdx = idx := by
  unfold processRequest at h
  split at h
  · exact ReqOutcome.noConfusion h
  · split at h
    · exact ReqOutcome.noConfusion h
    · injection h with h2
      exact trace_spec_aux idx _ o.callerAlive tr (Or.inl h2.symm)
    · split at h
      · injection h with h2
        exact trace_spec_aux idx _ o.callerAlive tr (Or.inr h2.symm)
      · injection h with h2
        exact trace_spec_aux idx _ o.callerAlive tr (Or.inl h2.symm)

/-- Whether a request's future resolves does not depend on its queue
position: only the trace's tags do. -/
theorem processRequest_isDone_idx (t : Option Nat) (idx : Nat) (o : RequestOracle) :
    (processRequest t idx o).isDone = (processRequest t 0 o).isDone := by
  unfold processRequest
  split
  · rfl
  · split
    · rfl
    · rfl
    · split
      · rfl
      · rfl

/-- The predicate `isDone` characterizes the `done` outcomes. -/
theorem isDone_iff (x : ReqOutcome) : x.isDone = true ↔ ∃ tr, x = .done tr := by
  cases x <;> simp [ReqOutcome.isDone]

/-- Inversion of a finished loop run on a non-empty queue: the head request's
future resolved first, then the rest of the queue ran, and the traces are
concatenated in that order. -/
theorem runLoopFrom_cons_finished (t : Option Nat) (idx : Nat) (o : RequestOracle)
    (rest : List RequestOracle) (tr : List Event)
    (h : runLoopFrom t idx (o :: rest) = .finished tr) :
    ∃ tr1 tr2, processRequest t idx o = .done tr1
      ∧ runLoopFrom t (idx + 1) rest = .finished tr2 ∧ tr = tr1 ++ tr2 := by
  unfold runLoopFrom at h
  cases hP : processRequest t idx o with
  | panicked tr0 => rw [hP] at h; cases h
  | stuck tr0 => rw [hP] at h; cases h
  | done tr0 =>
    rw [hP] at h
    cases hR : runLoopFrom t (idx + 1) rest with
    | panicked tr2 => rw [hR] at h; cases h
    | hung tr2 => rw [hR] at h; cases h
    | finished tr2 =>
      rw [hR] at h
      cases h
      exact ⟨tr0, tr2, rfl, rfl, rfl⟩

/-- If every queued request's future resolves, the loop finishes. -/
theorem runLoopFrom_finished_of_all (t : Option Nat) :
    ∀ (q : List RequestOracle) (idx : Nat),
      (∀ o ∈ q, (processRequest t 0 o).isDone = true) →
      ∃ tr, runLoopFrom t idx q = .finished tr := by
  intro q
  induction q with
  | nil => exact fun _ _ => ⟨[], rfl⟩
  | cons o rest ih =>
    intro idx hAll
    have hO : (processRequest t idx o).isDone = true := by
      rw [processRequest_isDone_idx]
      exact hAll o (List.mem_cons_self o rest)
    obtain ⟨tr1, hTr1⟩ := (isDone_iff _).1 hO
    obtain ⟨tr2, hTr2⟩ := ih (idx + 1) (fun o2 h2 => hAll o2 (List.mem_cons_of_mem _ h2))
    exact ⟨tr1 ++ tr2, by simp [runLoopFrom, hTr1, hTr2]⟩

/-- A finished loop trace contains, for the request at every queue position,
the start of its network call and a delivery attempt. -/
theorem runLoopFrom_finished_contains (t : Option Nat) :
    ∀ (q : List RequestOracle) (idx : Nat) (tr : List Event),
      runLoopFrom t idx q = .finished tr →
      ∀ i < q.length, Event.callStart (idx + i) ∈ tr
        ∧ ((∃ r, Event.deliverOk (idx + i) r ∈ tr)
            ∨ Event.deliverFailed (idx + i) ∈ tr) := by
  intro q
  induction q with
  | nil => intro idx tr _ i hi; exact absurd hi (by simp)
  | cons o rest ih =>
    intro idx tr h i hi
    obtain ⟨tr1, tr2, hDone, hRest, rfl⟩ := runLoopFrom_cons_finished t idx o rest tr h
    cases i with
    | zero =>
      obtain ⟨hcs, hdel, _, _⟩ := processRequest_done_events t idx o tr1 hDone
      refine ⟨by simpa using List.mem_append_left tr2 hcs, ?_⟩
      rcases hdel with ⟨r, hr⟩ | hf
      · exact Or.inl ⟨r, by simpa using List.mem_append_left tr2 hr⟩
      · exact Or.inr (by simpa using List.mem_append_left tr2 hf)
    | succ j =>
      have harith : idx + 1 + j = idx + (j + 1) := by omega
      have hj : j < rest.length := by
        simp only [List.length_cons] at hi
        omega
      obtain ⟨hcs, hdel⟩ := ih (idx + 1) tr2 hRest j hj
      rw [harith] at hcs hdel
      refine ⟨List.mem_append_right tr1 hcs, ?_⟩
      rcases hdel with ⟨r, hr⟩ | hf
      · exact Or.inl ⟨r, List.mem_append_right tr1 hr⟩
      · exact Or.inr (List.mem_append_right tr1 hf)

/-- Every event of a finished loop trace belongs to a request at or after the
starting queue position. -/
theorem runLoopFrom_trace_bound (t : Option Nat) :
    ∀ (q : List RequestOracle) (idx : Nat) (tr : List Event),
      runLoopFrom t idx q = .finished tr →
      ∀ ev ∈ tr, idx ≤ ev.reqIdx := by
  intro q
  induction q with
  | nil =>
    intro idx tr h ev hev
    cases h
    exact absurd hev (List.not_mem_nil ev)
  | cons o rest ih =>
    intro idx tr h ev hev
    obtain ⟨tr1, tr2, hDone, hRest, rfl⟩ := runLoopFrom_cons_finished t idx o rest tr h
    rcases List.mem_append.1 hev with h1 | h2
    · exact le_of_eq ((processRequest_done_events t idx o tr1 hDone).2.2.2 ev h1).symm
    · exact le_trans (Nat.le_succ idx) (ih (idx + 1) tr2 hRest ev h2)

/-- Along a finished loop trace, the queue position an event belongs to is
monotone: the loop never emits an event of a later request before one of an
earlier request. -/
theorem runLoopFrom_trace_pairwise (t : Option Nat) :
    ∀ (q : List RequestOracle) (idx : Nat) (tr : List Event),
      runLoopFrom t idx q = .finished tr →
      tr.Pairwise (fun a b => a.reqIdx ≤ b.reqIdx) := by
  intro q
  induction q with
  | nil =>
    intro idx tr h
    cases h
    exact List.Pairwise.nil
  | cons o rest ih =>
    intro idx tr h
    obtain ⟨tr1, tr2, hDone, hRest, rfl⟩ := runLoopFrom_cons_finished t idx o rest tr h
    have hIdx1 : ∀ ev ∈ tr1, ev.reqIdx = idx :=
      (processRequest_done_events t idx o tr1 hDone).2.2.2
    have hBound2 : ∀ ev ∈ tr2, idx + 1 ≤ ev.reqIdx :=
      runLoopFrom_trace_bound t rest (idx + 1) tr2 hRest
    rw [List.pairwise_append]
    refine ⟨?_, ih (idx + 1) tr2 hRest, ?_⟩
    · apply List.pairwise_of_forall_mem_list
      intro a ha b hb
      rw [hIdx1 a ha, hIdx1 b hb]
    · intro a ha b hb
      rw [hIdx1 a ha]
      exact le_trans (Nat.le_succ idx) (hBound2 b hb)

/-- A name filtered away is never found. -/
theorem headers_find_filter_ne (hs : Headers) (n : String) :
    (hs.filter (fun p => p.1 ≠ n)).find? (fun p => p.1 = n) = none := by
  rw [List.find?_eq_none]
  intro x hx
  have hq := (List.mem_filter.1 hx).2
  simp only [decide_eq_true_eq] at hq ⊢
  exact hq

/-- Lemma: `set` binds the name it sets. -/
theorem Headers.get_set_self (hs : Headers) (n v : String) :
    (hs.set n v).get n = some v := by
  unfold Headers.set Headers.get
  rw [List.find?_append, headers_find_filter_ne hs n, Option.none_or]
  rw [List.find?_cons_of_pos _ (by simp)]
  rfl

/-- Filtering by a predicate implied by the search predicate does not change
what is found. -/
theorem find_filter_of_imp (l : Headers) (p q : (String × String) → Bool)
    (h : ∀ x, p x = true → q x = true) :
    (l.filter q).find? p = l.find? p := by
  induction l with
  | nil => rfl
  | cons a rest ih =>
    cases hq : q a with
    | true =>
      rw [List.filter_cons_of_pos hq]
      cases hpa : p a with
      | true => rw [List.find?_cons_of_pos _ hpa, List.find?_cons_of_pos _ hpa]
      | false =>
        rw [List.find?_cons_of_neg _ (by simp [hpa]),
          List.find?_cons_of_neg _ (by simp [hpa])]
        exact ih
    | false =>
      have hpa : p a = false := by
        cases hpc : p a
        · rfl
        · exact absurd (h a hpc) (by simp [hq])
      rw [List.filter_cons_of_neg (by simp [hq]), List.find?_cons_of_neg _ (by simp [hpa])]
      exact ih

/-- Lemma: `set` of one name leaves every other name's binding unchanged. -/
theorem Headers.get_set_ne (hs : Headers) (n v m : String) (hne : m ≠ n) :
    (hs.set n v).get m = hs.get m := by
  unfold Headers.set Headers.get
  rw [List.find?_append]
  have h2 : List.find? (fun p => p.1 = m) [(n, v)] = none := by
    rw [List.find?_eq_none]
    intro x hx
    rw [List.mem_singleton] at hx
    subst hx
    simp only [decide_eq_true_eq]
    exact fun heq => hne heq.symm
  have h3 : (hs.filter (fun p => p.1 ≠ n)).find? (fun p => p.1 = m)
      = hs.find? (fun p => p.1 = m) := by
    apply find_filter_of_imp
    intro x hx
    simp only [decide_eq_true_eq] at hx ⊢
    exact fun hxn => hne (hx.symm.trans hxn)
  rw [h2, h3, Option.or_none]

/-- A name absent from a header collection is not bound there. -/
theorem Headers.get_eq_none_iff (hs : Headers) (n : String) :
    hs.get n = none ↔ ∀ p ∈ hs, p.1 ≠ n := by
  unfold Headers.get
  rw [Option.map_eq_none', List.find?_eq_none]
  constructor
  · intro h p hp
    have := h p hp
    simpa using this
  · intro h p hp
    simpa using h p hp

/-- One step of `extend`. -/
theorem Headers.extend_cons (hs : Headers) (q : String × String) (rest : Headers) :
    hs.extend (q :: rest) = (hs.set q.1 q.2).extend rest := rfl

/-- Extending with headers that never mention a name leaves that name's
binding unchanged. -/
theorem Headers.get_extend_not_mem (more : Headers) :
    ∀ (hs : Headers) (n : String), (∀ p ∈ more, p.1 ≠ n) →
      (hs.extend more).get n = hs.get n := by
  induction more with
  | nil => intro hs n _; rfl
  | cons q rest ih =>
    intro hs n h
    rw [Headers.extend_cons, ih _ n (fun p hp => h p (List.mem_cons_of_mem _ hp))]
    exact Headers.get_set_ne hs q.1 q.2 n (Ne.symm (h q (List.mem_cons_self _ _)))

/-- Extending with duplicate-free headers binds every name they mention to
their value, overriding whatever the base collection had. -/
theorem Headers.get_extend_mem (more : Headers) :
    ∀ (hs : Headers) (n v : String),
      (more.map Prod.fst).Nodup → more.get n = some v →
      (hs.extend more).get n = some v := by
  induction more with
  | nil =>
    intro hs n v _ hg
    exact absurd hg (by simp [Headers.get])
  | cons q rest ih =>
    intro hs n v hnd hg
    rw [List.map_cons, List.nodup_cons] at hnd
    obtain ⟨hnot, hnd2⟩ := hnd
    rw [Headers.extend_cons]
    by_cases hq : q.1 = n
    · have hv : v = q.2 := by
        unfold Headers.get at hg
        rw [List.find?_cons_of_pos _ (by simp [hq])] at hg
        exact (Option.some.inj hg).symm
      have hrest : ∀ p ∈ rest, p.1 ≠ n := by
        intro p hp hpn
        exact hnot (by rw [hq, ← hpn]; exact List.mem_map_of_mem Prod.fst hp)
      rw [Headers.get_extend_not_mem rest _ n hrest]
      subst hq
      rw [Headers.get_set_self, hv]
    · have hg2 : Headers.get rest n = some v := by
        unfold Headers.get at hg ⊢
        rw [List.find?_cons_of_neg _ (by simp [hq])] at hg
        exact hg
      exact ih _ n v hnd2 hg2

/-- One `fetch_add` step of the id sequence. -/
theorem idSequence_succ (s n : Nat) :
    idSequence s (n + 1) = s :: idSequence ((s + 1) % usizeWidth) n := rfl

/-- Lemma: `n` calls hand out `n` ids. -/
theorem idSequence_length (n : Nat) : ∀ s, (idSequence s n).length = n := by
  induction n with
  | zero => intro s; rfl
  | succ m ih =>
    intro s
    rw [idSequence_succ]
    simp [ih]

/-- Before the counter wraps, the handed-out ids are the consecutive range
starting at the counter's current value. -/
theorem idSequence_no_wrap (n : Nat) :
    ∀ s, s + n ≤ usizeWidth → idSequence s n = List.range' s n := by
  induction n with
  | zero => intro s _; rfl
  | succ m ih =>
    intro s h
    rw [idSequence_succ, List.range'_succ]
    congr 1
    cases m with
    | zero => rfl
    | succ k =>
      have hlt : s + 1 < usizeWidth := by omega
      rw [Nat.mod_eq_of_lt hlt]
      exact ih (s + 1) (by omega)

/-- The `k`-th id handed out is the start value advanced `k` steps, modulo
the word width. -/
theorem idSequence_get (n : Nat) :
    ∀ s k, s < usizeWidth → k < n →
      (idSequence s n)[k]? = some ((s + k) % usizeWidth) := by
  induction n with
  | zero => intro s k _ hk; exact absurd hk (Nat.not_lt_zero k)
  | succ m ih =>
    intro s k hs hk
    rw [idSequence_succ]
    cases k with
    | zero => simp [Nat.mod_eq_of_lt hs]
    | succ j =>
      have hrec := ih ((s + 1) % usizeWidth) j
        (Nat.mod_lt _ (by norm_num [usizeWidth])) (by omega)
      rw [List.getElem?_cons_succ, hrec, Nat.mod_add_mod]
      have harith : s + 1 + j = s + (j + 1) := by omega
      rw [harith]

/-- Counterexample to C5 as stated: after the counter wraps (call number
2^64 + 1 on a 64-bit platform), `fetch_add` hands out the id 1 a second
time, so the returned values of N = 2^64 + 1 calls are not duplicate-free. -/
theorem C5_wraparound_counterexample : ¬ (transportIds (usizeWidth + 1)).Nodup := by
  intro hnd
  have h0 : (transportIds (usizeWidth + 1))[0]? = some 1 := by
    have := idSequence_get (usizeWidth + 1) 1 0 (by norm_num [usizeWidth]) (by omega)
    simpa [transportIds, HttpTransportBuilder.build] using this
  have hW : (transportIds (usizeWidth + 1))[usizeWidth]? = some 1 := by
    have hg := idSequence_get (usizeWidth + 1) 1 usizeWidth
      (by norm_num [usizeWidth]) (by omega)
    have harith : (1 + usizeWidth) % usizeWidth = 1 := by
      rw [Nat.add_mod_right]
      exact Nat.mod_eq_of_lt (by norm_num [usizeWidth])
    rw [harith] at hg
    simpa [transportIds, HttpTransportBuilder.build] using hg
  have hlen : (transportIds (usizeWidth + 1)).length = usizeWidth + 1 :=
    idSequence_length (usizeWidth + 1) 1
  have h01 : (0 : Nat) = usizeWidth := by
    refine List.getElem?_inj ?_ hnd ?_
    · omega
    · rw [h0, hW]
  exact absurd h01.symm (by norm_num [usizeWidth])

/-- C5 (amended): the shared counter starts at 1 and, as long as fewer than
2^64 ids are drawn (the counter has not wrapped), N calls sharing the counter
return exactly the values 1..N, with no duplicates. -/
theorem C5_ids_unique (n : Nat) (h : n < usizeWidth) :
    HttpTransportBuilder.build.idCounter = 1
  ∧ transportIds n = List.range' 1 n
  ∧ (transportIds n).Nodup
  ∧ ∀ v, v ∈ transportIds n ↔ 1 ≤ v ∧ v ≤ n := by
  have he : transportIds n = List.range' 1 n := idSequence_no_wrap n 1 (by omega)
  refine ⟨rfl, he, ?_, ?_⟩
  · rw [he]
    exact List.nodup_range' 1 n
  · intro v
    rw [he, List.mem_range'_1]
    omega

/-- Witness for C5 (amended): five calls on a fresh transport return
exactly 1..5. -/
theorem C5_ids_unique_witness : transportIds 5 = [1, 2, 3, 4, 5] :=
  ((C5_ids_unique 5 (by norm_num [usizeWidth])).2.1).trans (by decide)

/-- C2: for every operation wrapped by the Time-Limited Wrapper with a
configured duration: if the timer completes first the combined result is the
`RequestTimeout` error; if the operation completes first its own success or
error is propagated unchanged; and when both are ready in the same poll (a
tie) the operation's result is returned, never `RequestTimeout`. -/
theorem C2_timeout_race {α : Type} (op : Poll α ErrorC) (timer : Poll Unit Nat) :
    (op = .notReady → timer = .ready () →
      (TimeLimited.withTimer op timer).poll = .err (ErrorC.ofKind .requestTimeout))
  ∧ (∀ a, op = .ready a → (TimeLimited.withTimer op timer).poll = .ready a)
  ∧ (∀ e, op = .err e → (TimeLimited.withTimer op timer).poll = .err e) := by
  refine ⟨?_, ?_, ?_⟩
  · rintro rfl rfl; rfl
  · rintro a rfl; rfl
  · rintro e rfl; rfl

/-- Witness for C2 at concrete polls; the second conjunct is the tie case,
where the timer is ready in the same poll as the operation. -/
theorem C2_timeout_race_witness :
    (TimeLimited.withTimer (Poll.notReady : Poll Bytes ErrorC) (.ready ())).poll
        = .err (ErrorC.ofKind .requestTimeout)
  ∧ (TimeLimited.withTimer (Poll.ready ([3] : Bytes)) (.ready ())).poll = .ready [3] :=
  ⟨(C2_timeout_race Poll.notReady (.ready ())).1 rfl rfl,
   (C2_timeout_race (Poll.ready [3]) (.ready ())).2.1 [3] rfl⟩

/-- C8: the Time-Limited Wrapper constructed with no duration configured
behaves identically to the unwrapped operation: it wraps it as `Unlimited`
(whatever the timer-creation oracle would have said) and polling it passes
the original operation's result — success or error — through unchanged. -/
theorem C8_unlimited_passthrough {α : Type} (op : Poll α ErrorC)
    (timeoutNew : Except Nat (Poll Unit Nat)) :
    TimeLimited.new op none timeoutNew = some (.noTimer op)
  ∧ (TimeLimited.noTimer op).poll = op :=
  ⟨rfl, rfl⟩

/-- C10: when a time limit is configured and `Timeout::new` fails, building
the Time-Limited Wrapper panics (the `expect` in `TimeLimited::limited`), so
processing that request kills the whole loop — later queued requests never
run — and no error is ever delivered for the request. -/
theorem C10_timeout_creation_panic {α : Type} (op : Poll α ErrorC)
    (d ioCode idx : Nat) (o : RequestOracle) (rest : List RequestOracle)
    (hT : o.timeoutNew = .error ioCode) :
    TimeLimited.new op (some d) o.timeoutNew = none
  ∧ processRequest (some d) idx o = .panicked [.callStart idx]
  ∧ runLoopFrom (some d) idx (o :: rest) = .panicked [.callStart idx]
  ∧ ∀ r, Event.deliverOk idx r ∉ [Event.callStart idx] := by
  refine ⟨?_, ?_, ?_, ?_⟩
  · rw [hT]; rfl
  · simp [processRequest, TimeLimited.new, TimeLimited.limited, hT]
  · simp [runLoopFrom, processRequest, TimeLimited.new, TimeLimited.limited, hT]
  · simp

/-- Witness for C10: a request whose timer creation fails with io error 7
under a 5-unit timeout panics the loop. -/
theorem C10_timeout_creation_panic_witness :
    TimeLimited.new (Poll.notReady : Poll Response ErrorC) (some 5)
        (RequestOracle.mk (.error 7) .notReady true).timeoutNew = none
  ∧ processRequest (some 5) 0 ⟨.error 7, .notReady, true⟩ = .panicked [.callStart 0]
  ∧ runLoopFrom (some 5) 0 [⟨.error 7, .notReady, true⟩] = .panicked [.callStart 0]
  ∧ ∀ r, Event.deliverOk 0 r ∉ [Event.callStart 0] :=
  C10_timeout_creation_panic Poll.notReady 5 7 0 ⟨.error 7, .notReady, true⟩ [] rfl

/-- C3: `send` resolves with the `TokioCoreError "Not listening for
requests"` error (the spec's `QueueClosed`) when the queue has no live
consumer, with the `TokioCoreError "Died without returning response"` error
(the spec's `ExecutorTerminated`) when the request was enqueued but the
completion channel was dropped without a result, and with the delivered
result otherwise — in every case it resolves rather than hangs. -/
theorem C3_send_failure_modes (completion : Option (Except ErrorC Bytes))
    (r : Except ErrorC Bytes) :
    HttpHandle.send false completion
      = .error (ErrorC.withChain .sendError (.tokioCoreError "Not listening for requests"))
  ∧ HttpHandle.send true none
      = .error (ErrorC.withChain .channelCanceled
          (.tokioCoreError "Died without returning response"))
  ∧ HttpHandle.send true (some r) = r :=
  ⟨rfl, rfl, rfl⟩

/-- C1: for a request whose HTTP call produced a response (and whose timer,
if any, was created): on status exactly 200 the full body is read and
delivered to the waiting caller as the success result; on any other status
the caller gets `HttpError` carrying that status code, and the body is never
read — the trace has no body-read event and delivers exactly the error. -/
theorem C1_status_mapping (timeout : Option Nat) (idx : Nat) (o : RequestOracle)
    (resp : Response)
    (hCall : o.callPoll = .ready resp)
    (hAlive : o.callerAlive = true)
    (hNoPanic : timeout = none ∨ ∃ tp, o.timeoutNew = .ok tp) :
    (∀ b, resp.status = 200 → resp.body = .ok b →
      processRequest timeout idx o
        = .done [.callStart idx, .bodyRead idx, .deliverOk idx (.ok b)])
  ∧ (resp.status ≠ 200 →
      processRequest timeout idx o
        = .done [.callStart idx,
            .deliverOk idx (.error (ErrorC.ofKind (.httpError resp.status)))]) := by
  have hTL : ∃ tl, TimeLimited.new (fromErrPoll o.callPoll) timeout o.timeoutNew = some tl
      ∧ tl.poll = Poll.ready resp := by
    rcases hNoPanic with rfl | ⟨tp, hTp⟩
    · exact ⟨.noTimer _, rfl, by rw [hCall]; rfl⟩
    · cases timeout with
      | none => exact ⟨.noTimer _, rfl, by rw [hCall]; rfl⟩
      | some d =>
        refine ⟨.withTimer (fromErrPoll o.callPoll) tp, ?_, ?_⟩
        · simp [TimeLimited.new, TimeLimited.limited, hTp]
        · rw [hCall]; rfl
  obtain ⟨tl, hNew, hPoll⟩ := hTL
  constructor
  · intro b hStatus hBody
    simp [processRequest, hNew, hPoll, hStatus, hBody, deliverEvents, hAlive]
  · intro hStatus
    simp [processRequest, hNew, hPoll, hStatus, deliverEvents, hAlive]

/-- Witness for C1: a 200 response with body `[1, 2]` under a timeout whose
timer was created, and a 404 response with no timeout configured. -/
theorem C1_status_mapping_witness :
    processRequest (some 5) 0 ⟨.ok .notReady, .ready ⟨200, .ok [1, 2]⟩, true⟩
      = .done [.callStart 0, .bodyRead 0, .deliverOk 0 (.ok [1, 2])]
  ∧ processRequest none 1 ⟨.error 9, .ready ⟨404, .ok [7]⟩, true⟩
      = .done [.callStart 1, .deliverOk 1 (.error (ErrorC.ofKind (.httpError 404)))] :=
  ⟨(C1_status_mapping (some 5) 0 ⟨.ok .notReady, .ready ⟨200, .ok [1, 2]⟩, true⟩
      ⟨200, .ok [1, 2]⟩ rfl rfl (Or.inr ⟨.notReady, rfl⟩)).1 [1, 2] rfl rfl,
   (C1_status_mapping none 1 ⟨.error 9, .ready ⟨404, .ok [7]⟩, true⟩
      ⟨404, .ok [7]⟩ rfl rfl (Or.inl rfl)).2 (by decide)⟩

/-- C4: when the loop finishes its queue, every queued request's network call
was started and its completion delivered, and the trace is serialized: an
event of an earlier-queued request never comes after an event of a
later-queued one, so request N+1's call starts only after request N's whole
lifecycle (call, body read, delivery) is over. -/
theorem C4_fifo_serialization (timeout : Option Nat) (queue : List RequestOracle)
    (tr : List Event)
    (h : create_request_processing_future timeout queue = .finished tr) :
    (∀ i < queue.length, Event.callStart i ∈ tr
      ∧ ((∃ r, Event.deliverOk i r ∈ tr) ∨ Event.deliverFailed i ∈ tr))
  ∧ ∀ (p₁ p₂ : Fin tr.length), (tr.get p₁).reqIdx < (tr.get p₂).reqIdx → p₁ < p₂ := by
  constructor
  · intro i hi
    simpa using runLoopFrom_finished_contains timeout queue 0 tr h i hi
  · have hPW := runLoopFrom_trace_pairwise timeout queue 0 tr h
    rw [List.pairwise_iff_get] at hPW
    intro p₁ p₂ hlt
    by_contra hc
    push_neg at hc
    rcases lt_or_eq_of_le hc with hlt2 | heq
    · exact absurd (hPW p₂ p₁ hlt2) (by omega)
    · rw [heq] at hlt
      omega

/-- Witness for C4: a two-request queue (a 200 then a 500) finishes with the
first request's three events strictly before the second's two. -/
theorem C4_fifo_serialization_witness :
    Event.callStart 1 ∈
      ([.callStart 0, .bodyRead 0, .deliverOk 0 (.ok [1]), .callStart 1,
        .deliverOk 1 (.error (ErrorC.ofKind (.httpError 500)))] : List Event) :=
  ((C4_fifo_serialization (some 3)
      [⟨.ok .notReady, .ready ⟨200, .ok [1]⟩, true⟩,
       ⟨.ok .notReady, .ready ⟨500, .ok []⟩, true⟩]
      [.callStart 0, .bodyRead 0, .deliverOk 0 (.ok [1]), .callStart 1,
        .deliverOk 1 (.error (ErrorC.ofKind (.httpError 500)))]
      (by decide)).1 1 (by decide)).1

/-- C7: a failed delivery (caller already gone) puts the `warn!` log entry in
the request's trace and is not escalated, and whenever every queued request's
future resolves — whatever each one's outcome — the loop finishes the whole
queue, attempting a completion delivery for every request. -/
theorem C7_loop_resilience (timeout : Option Nat) (queue : List RequestOracle)
    (hAll : ∀ o ∈ queue, (processRequest timeout 0 o).isDone = true) :
    (∀ (idx : Nat) (o : RequestOracle) (tr : List Event),
        processRequest timeout idx o = .done tr → o.callerAlive = false →
        Event.warnLog idx ∈ tr)
  ∧ ∃ tr, create_request_processing_future timeout queue = .finished tr
      ∧ ∀ i < queue.length,
          (∃ r, Event.deliverOk i r ∈ tr) ∨ Event.deliverFailed i ∈ tr := by
  constructor
  · intro idx o tr hDone hDead
    exact (processRequest_done_events timeout idx o tr hDone).2.2.1 hDead
  · obtain ⟨tr, hTr⟩ := runLoopFrom_finished_of_all timeout queue 0 hAll
    refine ⟨tr, hTr, ?_⟩
    intro i hi
    simpa using (runLoopFrom_finished_contains timeout queue 0 tr hTr i hi).2

/-- Witness for C7: a queue whose first request fails with a 500 towards a
caller that is already gone, followed by a successful request, still finishes
with delivery attempts for both. -/
theorem C7_loop_resilience_witness :
    (∀ (idx : Nat) (o : RequestOracle) (tr : List Event),
        processRequest (some 1) idx o = .done tr → o.callerAlive = false →
        Event.warnLog idx ∈ tr)
  ∧ ∃ tr,
      create_request_processing_future (some 1)
          [⟨.ok .notReady, .ready ⟨500, .ok []⟩, false⟩,
           ⟨.ok .notReady, .ready ⟨200, .ok [2]⟩, true⟩]
        = .finished tr
      ∧ ∀ i < ([⟨.ok .notReady, .ready ⟨500, .ok []⟩, false⟩,
           ⟨.ok .notReady, .ready ⟨200, .ok [2]⟩, true⟩] : List RequestOracle).length,
          (∃ r, Event.deliverOk i r ∈ tr) ∨ Event.deliverFailed i ∈ tr :=
  C7_loop_resilience (some 1)
    [⟨.ok .notReady, .ready ⟨500, .ok []⟩, false⟩,
     ⟨.ok .notReady, .ready ⟨200, .ok [2]⟩, true⟩]
    (by decide)

/-- C6: a failing Client Factory makes both bootstrap modes return the
chained `ClientCreatorError` (the spec's `ClientConstructionFailed`): in
standalone mode the spawned thread signals the error and exits without
running the loop (second component `false`), and in shared mode the error is
returned before anything is spawned on the caller's loop. -/
theorem C6_construction_failure (e : Nat) :
    standalone (.ok ()) (.error e)
      = (.error (ErrorC.withChain (.ioErr e) .clientCreatorError), false)
  ∧ shared (.error e)
      = (.error (ErrorC.withChain (.ioErr e) .clientCreatorError), false) :=
  ⟨rfl, rfl⟩

/-- C9: every request built by a handle is an HTTP POST to the handle's
fixed URI carrying the payload; the JSON content type and the payload's byte
length are set automatically (visible whenever the handle's own headers do
not bind those names), and the handle's caller-configured headers are merged
in afterwards, so a caller-set header overrides an automatically set one of
the same name. -/
theorem C9_create_request (h : HttpHandle) (body : Bytes) :
    (h.create_request body).method = .post
  ∧ (h.create_request body).uri = h.uri
  ∧ (h.create_request body).body = body
  ∧ (h.headers.get "Content-Type" = none →
      (h.create_request body).headers.get "Content-Type" = some contentTypeJson)
  ∧ (h.headers.get "Content-Length" = none →
      (h.create_request body).headers.get "Content-Length"
        = some (toString body.length))
  ∧ ((h.headers.map Prod.fst).Nodup →
      ∀ n v, h.headers.get n = some v →
        (h.create_request body).headers.get n = some v) := by
  refine ⟨rfl, rfl, rfl, ?_, ?_, ?_⟩
  · intro hnone
    have hnot := (Headers.get_eq_none_iff h.headers "Content-Type").1 hnone
    show Headers.get
        (Headers.extend
          (Headers.set (Headers.set [] "Content-Type" contentTypeJson)
            "Content-Length" (toString body.length))
          h.headers)
        "Content-Type" = some contentTypeJson
    rw [Headers.get_extend_not_mem h.headers _ "Content-Type" hnot]
    rw [Headers.get_set_ne _ _ _ _ (by decide)]
    exact Headers.get_set_self _ _ _
  · intro hnone
    have hnot := (Headers.get_eq_none_iff h.headers "Content-Length").1 hnone
    show Headers.get
        (Headers.extend
          (Headers.set (Headers.set [] "Content-Type" contentTypeJson)
            "Content-Length" (toString body.length))
          h.headers)
        "Content-Length" = some (toString body.length)
    rw [Headers.get_extend_not_mem h.headers _ "Content-Length" hnot]
    exact Headers.get_set_self _ _ _
  · intro hnd n v hget
    show Headers.get
        (Headers.extend
          (Headers.set (Headers.set [] "Content-Type" contentTypeJson)
            "Content-Length" (toString body.length))
          h.headers)
        n = some v
    exact Headers.get_extend_mem h.headers _ n v hnd hget

/-- Witness for C9: a handle that overrides the content type keeps its own
value in the built request, while the untouched content length is set from
the 3-byte body. -/
theorem C9_create_request_witness :
    (HttpHandle.create_request ⟨"http://a/", [("Content-Type", "text/plain")]⟩
        [1, 2, 3]).headers.get "Content-Type" = some "text/plain"
  ∧ (HttpHandle.create_request ⟨"http://a/", [("Content-Type", "text/plain")]⟩
        [1, 2, 3]).headers.get "Content-Length" = some "3" :=
  ⟨(C9_create_request ⟨"http://a/", [("Content-Type", "text/plain")]⟩
        [1, 2, 3]).2.2.2.2.2 (by decide) "Content-Type" "text/plain" (by decide),
   ((C9_create_request ⟨"http://a/", [("Content-Type", "text/plain")]⟩
        [1, 2, 3]).2.2.2.2.1 (by decide)).trans (by decide)⟩

end JsonRpcHttp
